import Mathlib

/-!
Verification of the canvas interaction engine of the teamfred-desktop
idea-board client: viewport transform, undo/redo history log, multi-select,
sticky-note drag commit, group drag fan-out, and the connection overlay.
Coordinates and zoom factors are modelled over the rationals (the source
uses IEEE doubles; all claims here are exact-arithmetic statements).
-/

namespace TeamFred

/-! ## Viewport transform (CanvasProvider) -/

/-- Viewport state: zoom factor and pan offset. -/
structure CanvasState where
  zoom : ℚ
  panX : ℚ
  panY : ℚ
  deriving DecidableEq, Repr

def MIN_ZOOM : ℚ := 1/4

def MAX_ZOOM : ℚ := 2

def ZOOM_STEP : ℚ := 1/10

/-- Initial viewport state: zoom 1, pan (0,0). -/
def initialCanvasState : CanvasState := ⟨1, 0, 0⟩

/-- `zoomIn`: step zoom up by ZOOM_STEP, clamped above at MAX_ZOOM. -/
def zoomIn (s : CanvasState) : CanvasState :=
  { s with zoom := min MAX_ZOOM (s.zoom + ZOOM_STEP) }

/-- `zoomOut`: step zoom down by ZOOM_STEP, clamped below at MIN_ZOOM. -/
def zoomOut (s : CanvasState) : CanvasState :=
  { s with zoom := max MIN_ZOOM (s.zoom - ZOOM_STEP) }

/-- `resetZoom`: zoom back to 1 and pan to the origin. -/
def resetZoom (_ : CanvasState) : CanvasState := ⟨1, 0, 0⟩

/-- `setZoom`: clamp the requested zoom into [MIN_ZOOM, MAX_ZOOM]. -/
def setZoom (v : ℚ) (s : CanvasState) : CanvasState :=
  { s with zoom := max MIN_ZOOM (min MAX_ZOOM v) }

/-- `pan`: add a delta to the pan offset. -/
def pan (dx dy : ℚ) (s : CanvasState) : CanvasState :=
  { s with panX := s.panX + dx, panY := s.panY + dy }

/-- `setPan`: set the pan offset absolutely. -/
def setPan (x y : ℚ) (s : CanvasState) : CanvasState :=
  { s with panX := x, panY := y }

/-- Convert screen coordinates to canvas coordinates. -/
def screenToCanvas (s : CanvasState) (screenX screenY : ℚ) : ℚ × ℚ :=
  ((screenX - s.panX) / s.zoom, (screenY - s.panY) / s.zoom)

/-- Convert canvas coordinates to screen coordinates. -/
def canvasToScreen (s : CanvasState) (canvasX canvasY : ℚ) : ℚ × ℚ :=
  (canvasX * s.zoom + s.panX, canvasY * s.zoom + s.panY)

/-- The viewport mutations exposed by the canvas context. -/
inductive CanvasOp where
  | zoomIn
  | zoomOut
  | resetZoom
  | setZoom (v : ℚ)
  | pan (dx dy : ℚ)
  | setPan (x y : ℚ)

/-- Apply one viewport mutation. -/
def applyCanvasOp (s : CanvasState) : CanvasOp → CanvasState
  | .zoomIn => zoomIn s
  | .zoomOut => zoomOut s
  | .resetZoom => resetZoom s
  | .setZoom v => setZoom v s
  | .pan dx dy => pan dx dy s
  | .setPan x y => setPan x y s

/-- The zoom factor lies in the configured [MIN_ZOOM, MAX_ZOOM] range. -/
def zoomInRange (s : CanvasState) : Prop :=
  MIN_ZOOM ≤ s.zoom ∧ s.zoom ≤ MAX_ZOOM

/-! ## History log (useHistory) -/

/-- Kind tag of a history entry. -/
inductive EntryType where
  | position
  | size
  | content
  | tags
  | create
  | delete
  deriving DecidableEq, Repr

/-- Attribute snapshots carried in the (untyped in the source) before/after
fields of a history entry. -/
inductive Snapshot where
  | pos (x y : ℚ)
  | dims (width height : ℚ)
  | text (title : String) (description : Option String)
  | tagIds (ids : List ℕ)
  deriving DecidableEq, Repr

/-- One undoable attribute-level change to a single note. -/
structure HistoryEntry where
  type : EntryType
  ideaId : ℕ
  before : Snapshot
  after : Snapshot
  deriving DecidableEq, Repr

def MAX_HISTORY : ℕ := 50

/-- The undo/redo stacks. -/
structure History where
  past : List HistoryEntry
  future : List HistoryEntry
  deriving DecidableEq, Repr

/-- Both stacks start empty. -/
def emptyHistory : History := ⟨[], []⟩

/-- `push`: append the entry to past, keep only the last MAX_HISTORY entries
when the limit is exceeded (slice(-MAX_HISTORY)), and clear future. -/
def History.push (h : History) (entry : HistoryEntry) : History :=
  let newPast := h.past ++ [entry]
  { past :=
      if MAX_HISTORY < newPast.length then newPast.drop (newPast.length - MAX_HISTORY)
      else newPast,
    future := [] }

/-- `undo`: pop the most recent past entry, push it onto future and return it;
when past is empty return nothing and change nothing. -/
def History.undo (h : History) : History × Option HistoryEntry :=
  match h.past.getLast? with
  | none => (h, none)
  | some entry => (⟨h.past.dropLast, h.future ++ [entry]⟩, some entry)

/-- `redo`: the mirror of `undo`, moving the most recent future entry back. -/
def History.redo (h : History) : History × Option HistoryEntry :=
  match h.future.getLast? with
  | none => (h, none)
  | some entry => (⟨h.past ++ [entry], h.future.dropLast⟩, some entry)

/-- A whole sequence of pushes, oldest first. -/
def pushAll (es : List HistoryEntry) (h : History) : History :=
  es.foldl History.push h

/-- A sample position entry for note 1. -/
def entryA : HistoryEntry := ⟨.position, 1, .pos 0 0, .pos 10 10⟩

/-- A sample size entry for note 2. -/
def entryB : HistoryEntry := ⟨.size, 2, .dims 200 150, .dims 300 200⟩

/-! ## Multi-select (useMultiSelect) -/

/-- `toggleSelect`: with ctrl held, flip membership of the id in the selection
list (filter it out when present, append it otherwise); without ctrl, replace
the selection with just this id. -/
def toggleSelect (id : ℕ) (ctrlKey : Bool) (prev : List ℕ) : List ℕ :=
  if ctrlKey then
    if prev.contains id then prev.filter (fun i => i != id) else prev ++ [id]
  else [id]

/-! ## Remote writes issued by the board controller -/

/-- A PATCH request issued against the REST API. -/
inductive Patch where
  | ideaPosition (ideaId : ℕ) (x y : ℚ)
  | ideaSize (ideaId : ℕ) (width height : ℚ)
  | groupPosition (groupId : ℕ) (x y : ℚ)
  deriving DecidableEq, Repr

/-- `updatePosition`: push a position history entry when both old coordinates
are supplied, and always PATCH the idea position endpoint. Returns the pushed
entries and the issued patches. -/
def updatePosition (id : ℕ) (x y : ℚ) (oldX oldY : Option ℚ) :
    List HistoryEntry × List Patch :=
  (match oldX, oldY with
    | some ox, some oy => [⟨.position, id, .pos ox oy, .pos x y⟩]
    | _, _ => [],
   [.ideaPosition id x y])

/-- `updateSize`: push a size history entry when the old size is supplied, and
always PATCH the idea size endpoint. -/
def updateSize (id : ℕ) (width height : ℚ) (oldWidth oldHeight : Option ℚ) :
    List HistoryEntry × List Patch :=
  (match oldWidth, oldHeight with
    | some ow, some oh => [⟨.size, id, .dims ow oh, .dims width height⟩]
    | _, _ => [],
   [.ideaSize id width height])

/-! ## Sticky-note drag and resize (StickyNote) -/

/-- One pointer-move frame of a sticky-note drag: convert the pointer to
canvas space, subtract the zoom-scaled grab offset, clamp at 0. -/
def dragMovePosition (zoom panX panY dragOffsetX dragOffsetY screenX screenY : ℚ) :
    ℚ × ℚ :=
  (max 0 ((screenX - panX) / zoom - dragOffsetX / zoom),
   max 0 ((screenY - panY) / zoom - dragOffsetY / zoom))

/-- Screen-space edge (left or top) of a note rendered at a canvas coordinate
inside the transform layer translate(panX, panY) scale(zoom), origin (0,0). -/
def noteScreenEdge (zoom panOffset containerEdge notePos : ℚ) : ℚ :=
  containerEdge + panOffset + notePos * zoom

/-- The position reached at the end of a drag that grabbed the note (canvas
start position (startX, startY)) at pointer (downX, downY) and released it at
(upX, upY): the grab offset recorded on mouse-down, fed through the last
pointer-move frame. -/
def dragFinalPosition (zoom panX panY containerLeft containerTop : ℚ)
    (startX startY downX downY upX upY : ℚ) : ℚ × ℚ :=
  dragMovePosition zoom panX panY
    (downX - noteScreenEdge zoom panX containerLeft startX)
    (downY - noteScreenEdge zoom panY containerTop startY)
    (upX - containerLeft) (upY - containerTop)

/-- Mouse-up at the end of a sticky-note drag: commit through `updatePosition`
only when the final position differs from the recorded start. -/
def dragMouseUp (id : ℕ) (startX startY finalX finalY : ℚ) :
    List HistoryEntry × List Patch :=
  if finalX ≠ startX ∨ finalY ≠ startY then
    updatePosition id finalX finalY (some startX) (some startY)
  else ([], [])

/-- Mouse-up at the end of a sticky-note resize: commit through `updateSize`
only when the final size differs from the recorded start. -/
def resizeMouseUp (id : ℕ) (startWidth startHeight finalWidth finalHeight : ℚ) :
    List HistoryEntry × List Patch :=
  if finalWidth ≠ startWidth ∨ finalHeight ≠ startHeight then
    updateSize id finalWidth finalHeight (some startWidth) (some startHeight)
  else ([], [])

/-! ## Group drag (IdeaGroup, IdeaWall.handleDragGroup) -/

/-- The idea fields used by the canvas interaction engine. -/
structure Idea where
  id : ℕ
  position_x : ℚ
  position_y : ℚ
  deriving DecidableEq, Repr

/-- The group fields used by group dragging. -/
structure IdeaGroupData where
  id : ℕ
  idea_ids : List ℕ
  deriving DecidableEq, Repr

/-- One pointer-move frame of a group drag: the group box moves to the clamped
cumulative position (delta from drag start, scaled by 1/zoom) and the
incremental delta from the previous frame (also scaled by 1/zoom) is
broadcast through onDragGroup. Returns (new box position, broadcast delta). -/
def groupDragFrame (zoom dragStartX dragStartY lastX lastY clientX clientY
    startPosX startPosY : ℚ) : (ℚ × ℚ) × (ℚ × ℚ) :=
  ((max 0 (startPosX + (clientX - dragStartX) / zoom),
    max 0 (startPosY + (clientY - dragStartY) / zoom)),
   ((clientX - lastX) / zoom, (clientY - lastY) / zoom))

/-- `handleDragGroup` (board controller): translate every member of the group
by the broadcast delta, and issue a position PATCH for every member found in
the idea list, computed from the pre-update positions. -/
def handleDragGroup (groups : List IdeaGroupData) (ideas : List Idea)
    (groupId : ℕ) (deltaX deltaY : ℚ) : List Idea × List Patch :=
  match groups.find? (fun g => g.id == groupId) with
  | none => (ideas, [])
  | some group =>
      (ideas.map (fun idea =>
        if group.idea_ids.contains idea.id then
          { idea with position_x := idea.position_x + deltaX,
                      position_y := idea.position_y + deltaY }
        else idea),
       group.idea_ids.filterMap (fun ideaId =>
        (ideas.find? (fun i => i.id == ideaId)).map (fun idea =>
          Patch.ideaPosition ideaId (idea.position_x + deltaX)
            (idea.position_y + deltaY))))

/-- `updateGroupPosition`: PATCH the group position endpoint; no history entry
is pushed. -/
def updateGroupPosition (id : ℕ) (x y : ℚ) : List HistoryEntry × List Patch :=
  ([], [.groupPosition id x y])

/-- Mouse-up at the end of a group drag: commit the cumulative position via
`updateGroupPosition` only when it differs from the start. -/
def groupDragMouseUp (groupId : ℕ) (startX startY finalX finalY : ℚ) :
    List HistoryEntry × List Patch :=
  if finalX ≠ startX ∨ finalY ≠ startY then updateGroupPosition groupId finalX finalY
  else ([], [])

/-! ## Connection overlay and selection (IdeaWall.handleSelect and
handleCanvasClick) -/

/-- Selection and connection-mode state owned by the board controller. -/
structure SelectState where
  isConnecting : Bool
  connectingSourceId : Option ℕ
  selectedId : Option ℕ
  selectedIds : List ℕ
  deriving DecidableEq, Repr

/-- `handleSelect`: in connection mode a first note click records the source,
a click on a different note creates one edge (source, target) and leaves
connection mode, and a click on the already chosen source falls through both
inner branches and changes nothing; outside connection mode the click updates
the single or additive selection. Returns the new state and the created edge,
if any. -/
def handleSelect (s : SelectState) (id : Option ℕ) (ctrlKey : Bool) :
    SelectState × Option (ℕ × ℕ) :=
  match id, s.isConnecting with
  | some i, true =>
      match s.connectingSourceId with
      | none => ({ s with connectingSourceId := some i }, none)
      | some src =>
          if src ≠ i then
            ({ s with isConnecting := false, connectingSourceId := none },
             some (src, i))
          else (s, none)
  | _, _ =>
      match id, ctrlKey with
      | some i, true =>
          ({ s with selectedIds := toggleSelect i true s.selectedIds,
                    selectedId := none }, none)
      | _, _ => ({ s with selectedIds := [], selectedId := id }, none)

/-- `handleCanvasClick`: clicking the empty canvas (unless panning) clears the
selection and, when connecting, exits connection mode and drops the source. -/
def handleCanvasClick (s : SelectState) (isPanning targetIsCanvas : Bool) :
    SelectState :=
  if isPanning then s
  else if targetIsCanvas then
    let s1 := { s with selectedId := none, selectedIds := ([] : List ℕ) }
    if s1.isConnecting then
      { s1 with isConnecting := false, connectingSourceId := none }
    else s1
  else s

/-! ## Theorems -/

theorem push_future_nil (h : History) (e : HistoryEntry) : (h.push e).future = [] := rfl

theorem redo_of_future_nil (h : History) (hf : h.future = []) : h.redo = (h, none) := by
  unfold History.redo
  rw [hf]
  rfl

theorem push_past_of_drop (h : History) (e : HistoryEntry) (ds : List HistoryEntry)
    (hp : h.past = ds.drop (ds.length - MAX_HISTORY)) :
    (h.push e).past = (ds ++ [e]).drop ((ds ++ [e]).length - MAX_HISTORY) := by
  have hM : 0 < MAX_HISTORY := by norm_num [MAX_HISTORY]
  by_cases hc : ds.length < MAX_HISTORY
  · have h0 : ds.length - MAX_HISTORY = 0 := Nat.sub_eq_zero_of_le (le_of_lt hc)
    have hpast : h.past = ds := by rw [hp, h0, List.drop_zero]
    have hnlt : ¬ MAX_HISTORY < (h.past ++ [e]).length := by
      simp only [List.length_append, List.length_singleton, hpast]
      omega
    have h1 : (ds ++ [e]).length - MAX_HISTORY = 0 := by
      simp only [List.length_append, List.length_singleton]
      omega
    simp only [History.push, hnlt, if_false, hpast, h1, List.drop_zero]
    split <;> rfl
  · push_neg at hc
    have hplen : h.past.length = MAX_HISTORY := by
      rw [hp, List.length_drop]
      omega
    have hlt : MAX_HISTORY < (h.past ++ [e]).length := by
      simp only [List.length_append, List.length_singleton, hplen]
      omega
    have hd1 : (h.past ++ [e]).length - MAX_HISTORY = 1 := by
      simp only [List.length_append, List.length_singleton, hplen]
      omega
    have hdrop1 : (h.past ++ [e]).drop 1 = h.past.drop 1 ++ [e] :=
      List.drop_append_of_le_length (by omega)
    have hdd : h.past.drop 1 = ds.drop (ds.length - MAX_HISTORY + 1) := by
      rw [hp, List.drop_drop]
    have hrhslen : (ds ++ [e]).length - MAX_HISTORY = ds.length - MAX_HISTORY + 1 := by
      simp only [List.length_append, List.length_singleton]
      omega
    have hrhs : (ds ++ [e]).drop (ds.length - MAX_HISTORY + 1) =
        ds.drop (ds.length - MAX_HISTORY + 1) ++ [e] :=
      List.drop_append_of_le_length (by omega)
    simp only [History.push, hlt, if_true, hd1, hdrop1, hdd, hrhslen, hrhs]

theorem pushAll_past (es : List HistoryEntry) :
    (pushAll es emptyHistory).past = es.drop (es.length - MAX_HISTORY) := by
  induction es using List.reverseRecOn with
  | nil => rfl
  | append_singleton ds e ih =>
      have hfold : pushAll (ds ++ [e]) emptyHistory =
          (pushAll ds emptyHistory).push e := by
        simp only [pushAll, List.foldl_append, List.foldl_cons, List.foldl_nil]
      rw [hfold]
      exact push_past_of_drop _ e ds ih

theorem zoomInRange_initial : zoomInRange initialCanvasState := by
  constructor <;> norm_num [initialCanvasState, MIN_ZOOM, MAX_ZOOM]

theorem zoomInRange_applyCanvasOp (s : CanvasState) (op : CanvasOp)
    (h : zoomInRange s) : zoomInRange (applyCanvasOp s op) := by
  obtain ⟨h1, h2⟩ := h
  have hmm : MIN_ZOOM ≤ MAX_ZOOM := by norm_num [MIN_ZOOM, MAX_ZOOM]
  have hstep : (0 : ℚ) ≤ ZOOM_STEP := by norm_num [ZOOM_STEP]
  cases op with
  | zoomIn =>
      simp only [applyCanvasOp, zoomIn, zoomInRange]
      exact ⟨le_min hmm (le_trans h1 (by linarith)), min_le_left _ _⟩
  | zoomOut =>
      simp only [applyCanvasOp, zoomOut, zoomInRange]
      exact ⟨le_max_left _ _, max_le hmm (le_trans (by linarith) h2)⟩
  | resetZoom =>
      simp only [applyCanvasOp, resetZoom, zoomInRange]
      norm_num [MIN_ZOOM, MAX_ZOOM]
  | setZoom v =>
      simp only [applyCanvasOp, setZoom, zoomInRange]
      exact ⟨le_max_left _ _, max_le hmm (min_le_left _ _)⟩
  | pan dx dy => exact ⟨h1, h2⟩
  | setPan x y => exact ⟨h1, h2⟩

/-- C1: for every viewport state with zoom in [MIN_ZOOM, MAX_ZOOM] and any pan
offset, `canvasToScreen` inverts `screenToCanvas` exactly over the rationals:
the round trip returns the original point. -/
theorem canvasToScreen_screenToCanvas_roundTrip (s : CanvasState)
    (hz : zoomInRange s) (x y : ℚ) :
    canvasToScreen s (screenToCanvas s x y).1 (screenToCanvas s x y).2 = (x, y) := by
  obtain ⟨h1, _⟩ := hz
  have hz0 : s.zoom ≠ 0 := by
    have : (0 : ℚ) < s.zoom := lt_of_lt_of_le (by norm_num [MIN_ZOOM]) h1
    exact ne_of_gt this
  simp only [screenToCanvas, canvasToScreen, Prod.mk.injEq]
  constructor <;> field_simp

/-- Witness for C1 at zoom 2, pan (3,4), point (10, 20). -/
theorem canvasToScreen_screenToCanvas_roundTrip_witness :
    canvasToScreen ⟨2, 3, 4⟩ (screenToCanvas ⟨2, 3, 4⟩ 10 20).1
      (screenToCanvas ⟨2, 3, 4⟩ 10 20).2 = (10, 20) :=
  canvasToScreen_screenToCanvas_roundTrip ⟨2, 3, 4⟩
    (by constructor <;> norm_num [zoomInRange, MIN_ZOOM, MAX_ZOOM]) 10 20

/-- C2: every viewport mutation keeps zoom inside [MIN_ZOOM, MAX_ZOOM]:
`setZoom` clamps any input, `zoomIn`/`zoomOut` step and clamp, `resetZoom`
sets zoom to 1, and `pan`/`setPan` leave zoom unchanged; hence every state
reachable from the initial state (zoom 1) by any sequence of mutations has
its zoom in range. -/
theorem viewport_zoom_invariant :
    (∀ v s, MIN_ZOOM ≤ (setZoom v s).zoom ∧ (setZoom v s).zoom ≤ MAX_ZOOM) ∧
    (∀ s, (resetZoom s).zoom = 1) ∧
    (∀ dx dy s, (pan dx dy s).zoom = s.zoom) ∧
    (∀ x y s, (setPan x y s).zoom = s.zoom) ∧
    (∀ ops : List CanvasOp, zoomInRange (ops.foldl applyCanvasOp initialCanvasState)) := by
  refine ⟨?_, fun _ => rfl, fun _ _ _ => rfl, fun _ _ _ => rfl, ?_⟩
  · intro v s
    simp only [setZoom]
    exact ⟨le_max_left _ _,
      max_le (by norm_num [MIN_ZOOM, MAX_ZOOM]) (min_le_left _ _)⟩
  · intro ops
    have main : ∀ (l : List CanvasOp) (s : CanvasState), zoomInRange s →
        zoomInRange (l.foldl applyCanvasOp s) := by
      intro l
      induction l with
      | nil => intro s hs; exact hs
      | cons op rest ih =>
          intro s hs
          exact ih _ (zoomInRange_applyCanvasOp s op hs)
    exact main ops initialCanvasState zoomInRange_initial

/-- C5: for every history state and entry, `push` leaves the future stack
empty; in particular after any `undo` followed by a `push`, a `redo` returns
nothing and leaves the stacks unchanged. -/
theorem push_clears_future :
    (∀ (h : History) (e : HistoryEntry), (h.push e).future = []) ∧
    (∀ (h : History) (e : HistoryEntry),
      ((h.undo).1.push e).redo = (((h.undo).1.push e), none)) :=
  ⟨push_future_nil, fun h e => redo_of_future_nil _ (push_future_nil (h.undo).1 e)⟩

/-- C6: for every sequence of pushes from the empty history, the past stack is
exactly the most recent MAX_HISTORY pushed entries in order (the oldest are
evicted first), and its length never exceeds MAX_HISTORY. -/
theorem history_capacity_fifo :
    (∀ es : List HistoryEntry,
      (pushAll es emptyHistory).past = es.drop (es.length - MAX_HISTORY)) ∧
    (∀ es : List HistoryEntry, (pushAll es emptyHistory).past.length ≤ MAX_HISTORY) := by
  refine ⟨pushAll_past, fun es => ?_⟩
  rw [pushAll_past, List.length_drop]
  omega

/-- C7: after push(A) then push(B), undo returns B then A, the future stack
then holds [B, A] in that order, a redo then returns A; and undo/redo on an
empty respective stack return nothing and change nothing. -/
theorem history_undo_redo_scenario :
    (((emptyHistory.push entryA).push entryB).undo.2 = some entryB) ∧
    ((((emptyHistory.push entryA).push entryB).undo.1.undo).2 = some entryA) ∧
    ((((emptyHistory.push entryA).push entryB).undo.1.undo).1.future = [entryB, entryA]) ∧
    (((((emptyHistory.push entryA).push entryB).undo.1.undo).1.redo).2 = some entryA) ∧
    (∀ f : List HistoryEntry, History.undo ⟨[], f⟩ = (⟨[], f⟩, none)) ∧
    (∀ p : List HistoryEntry, History.redo ⟨p, []⟩ = (⟨p, []⟩, none)) :=
  ⟨rfl, rfl, rfl, rfl, fun _ => rfl, fun _ => rfl⟩

/-- C8: the additive toggle applied twice to the same id restores the
selection as a set (membership is unchanged for every id), and the
non-additive toggle always collapses the selection to exactly [id]. -/
theorem toggleSelect_involution_and_replace :
    (∀ (prev : List ℕ) (id j : ℕ),
      j ∈ toggleSelect id true (toggleSelect id true prev) ↔ j ∈ prev) ∧
    (∀ (prev : List ℕ) (id : ℕ), toggleSelect id false prev = [id]) := by
  constructor
  · intro prev id j
    by_cases hmem : id ∈ prev <;>
      by_cases hj : j = id <;>
      simp [toggleSelect, hmem, hj, List.mem_filter, List.filter_append]
  · intro prev id
    rfl

/-- C3: a drag converts the accumulated pointer screen delta to canvas space
by scaling with 1/zoom (when the clamp at 0 does not bind); in particular a
note starting at canvas (100, 100) dragged by screen delta (50, 0) at zoom 2
and pan (0, 0) ends at (125, 100), and the mouse-up commits exactly that
position with the recorded start. -/
theorem drag_canvas_delta (zoom panX panY cL cT sx sy dX dY uX uY : ℚ)
    (hz : zoom ≠ 0)
    (hx : 0 ≤ sx + (uX - dX) / zoom) (hy : 0 ≤ sy + (uY - dY) / zoom) :
    dragFinalPosition zoom panX panY cL cT sx sy dX dY uX uY =
      (sx + (uX - dX) / zoom, sy + (uY - dY) / zoom) ∧
    dragFinalPosition 2 0 0 0 0 100 100 0 0 50 0 = (125, 100) ∧
    dragMouseUp 7 100 100 125 100 =
      ([⟨.position, 7, .pos 100 100, .pos 125 100⟩], [.ideaPosition 7 125 100]) := by
  refine ⟨?_, ?_, ?_⟩
  · have e1 : (uX - cL - panX) / zoom - (dX - (cL + panX + sx * zoom)) / zoom
        = sx + (uX - dX) / zoom := by
      field_simp
      ring
    have e2 : (uY - cT - panY) / zoom - (dY - (cT + panY + sy * zoom)) / zoom
        = sy + (uY - dY) / zoom := by
      field_simp
      ring
    simp only [dragFinalPosition, dragMovePosition, noteScreenEdge, e1, e2,
      Prod.mk.injEq]
    exact ⟨max_eq_right hx, max_eq_right hy⟩
  · norm_num [dragFinalPosition, dragMovePosition, noteScreenEdge, max_def]
  · norm_num [dragMouseUp, updatePosition]

/-- Witness for C3 at zoom 2, pan (0,0), start (100,100), screen delta (50,0). -/
theorem drag_canvas_delta_witness :
    dragFinalPosition 2 0 0 0 0 100 100 0 0 50 0
      = (100 + ((50 : ℚ) - 0) / 2, 100 + ((0 : ℚ) - 0) / 2) :=
  (drag_canvas_delta 2 0 0 0 0 100 100 0 0 50 0 (by norm_num) (by norm_num)
    (by norm_num)).1

/-- C4: ending a drag (resp. resize) whose final coordinates equal the
recorded start pushes no history entry and issues no PATCH; when they differ,
exactly one history entry of type position (resp. size) and exactly one PATCH
are produced. -/
theorem drag_commit_suppression (id : ℕ) (sx sy fx fy sw sh fw fh : ℚ) :
    ((fx = sx ∧ fy = sy) → dragMouseUp id sx sy fx fy = ([], [])) ∧
    (¬(fx = sx ∧ fy = sy) →
      dragMouseUp id sx sy fx fy =
        ([⟨.position, id, .pos sx sy, .pos fx fy⟩], [.ideaPosition id fx fy])) ∧
    ((fw = sw ∧ fh = sh) → resizeMouseUp id sw sh fw fh = ([], [])) ∧
    (¬(fw = sw ∧ fh = sh) →
      resizeMouseUp id sw sh fw fh =
        ([⟨.size, id, .dims sw sh, .dims fw fh⟩], [.ideaSize id fw fh])) := by
  refine ⟨fun h => ?_, fun h => ?_, fun h => ?_, fun h => ?_⟩
  · rw [dragMouseUp, if_neg]
    push_neg
    exact h
  · rw [dragMouseUp, if_pos]
    · rfl
    · tauto
  · rw [resizeMouseUp, if_neg]
    push_neg
    exact h
  · rw [resizeMouseUp, if_pos]
    · rfl
    · tauto

/-- Witness for C4: an unmoved drag commits nothing, a moved drag and a
resized note each commit exactly one entry and one patch. -/
theorem drag_commit_suppression_witness :
    dragMouseUp 1 5 5 5 5 = ([], []) ∧
    dragMouseUp 1 5 5 6 5 =
      ([⟨.position, 1, .pos 5 5, .pos 6 5⟩], [.ideaPosition 1 6 5]) ∧
    resizeMouseUp 1 200 150 210 150 =
      ([⟨.size, 1, .dims 200 150, .dims 210 150⟩], [.ideaSize 1 210 150]) :=
  ⟨(drag_commit_suppression 1 5 5 5 5 0 0 0 0).1 ⟨rfl, rfl⟩,
   (drag_commit_suppression 1 5 5 6 5 0 0 0 0).2.1 (by norm_num),
   (drag_commit_suppression 1 0 0 0 0 200 150 210 150).2.2.2 (by norm_num)⟩

theorem length_filterMap_of_isSome {α β : Type} (f : α → Option β) :
    ∀ l : List α, (∀ a ∈ l, (f a).isSome) → (l.filterMap f).length = l.length := by
  intro l
  induction l with
  | nil => intro _; rfl
  | cons a t ih =>
      intro h
      obtain ⟨b, hb⟩ := Option.isSome_iff_exists.mp (h a (List.mem_cons_self a t))
      rw [List.filterMap_cons, hb, List.length_cons, List.length_cons,
        ih (fun x hx => h x (List.mem_cons_of_mem a hx))]

/-- C9 counterexample: one pointer-move frame of a group drag does issue a
remote position PATCH for a member note (group 1 with member note 2 at
(0,0), frame delta (1,0)). -/
theorem group_drag_frame_patch_counterexample :
    (handleDragGroup [⟨1, [2]⟩] [⟨2, 0, 0⟩] 1 1 0).2 = [.ideaPosition 2 1 0] ∧
    (handleDragGroup [⟨1, [2]⟩] [⟨2, 0, 0⟩] 1 1 0).2 ≠ [] := by
  constructor <;>
    norm_num [handleDragGroup, List.filterMap_cons, List.filterMap_nil]

/-- C9 amended: each frame broadcasts the incremental per-frame delta and the
controller translates every member note by it in lock-step, but it also
issues one position PATCH per member note per frame (from the pre-update
positions); on release the group box's own cumulative position is committed
to the remote group endpoint with no history entry. -/
theorem group_drag_lockstep (g : IdeaGroupData) (groups : List IdeaGroupData)
    (ideas : List Idea) (dx dy : ℚ)
    (hfind : groups.find? (fun q => q.id == g.id) = some g)
    (hmem : ∀ mid ∈ g.idea_ids, (ideas.find? (fun i => i.id == mid)).isSome) :
    ((handleDragGroup groups ideas g.id dx dy).1 =
      ideas.map (fun idea =>
        if g.idea_ids.contains idea.id then
          { idea with position_x := idea.position_x + dx,
                      position_y := idea.position_y + dy }
        else idea)) ∧
    ((handleDragGroup groups ideas g.id dx dy).2.length = g.idea_ids.length) ∧
    (∀ zoom dsx dsy lx ly cx cy px py,
      (groupDragFrame zoom dsx dsy lx ly cx cy px py).2
        = ((cx - lx) / zoom, (cy - ly) / zoom)) ∧
    (∀ gid sx sy fx fy, (fx ≠ sx ∨ fy ≠ sy) →
      groupDragMouseUp gid sx sy fx fy = ([], [.groupPosition gid fx fy])) := by
  refine ⟨?_, ?_, fun _ _ _ _ _ _ _ _ _ => rfl, fun gid sx sy fx fy h => ?_⟩
  · simp only [handleDragGroup, hfind]
  · simp only [handleDragGroup, hfind]
    refine length_filterMap_of_isSome _ g.idea_ids (fun mid hm => ?_)
    obtain ⟨idea, hidea⟩ := Option.isSome_iff_exists.mp (hmem mid hm)
    rw [hidea]
    rfl
  · rw [groupDragMouseUp, if_pos h]
    rfl

/-- Witness for the amended C9: group 1 with member note 2; a frame with
delta (1,0) translates the member and issues exactly one member PATCH, and a
moved release commits one remote group-position write and no history entry. -/
theorem group_drag_lockstep_witness :
    (handleDragGroup [⟨1, [2]⟩] [⟨2, 0, 0⟩] 1 1 0).2.length = 1 ∧
    groupDragMouseUp 1 0 0 1 0 = ([], [.groupPosition 1 1 0]) :=
  ⟨(group_drag_lockstep ⟨1, [2]⟩ [⟨1, [2]⟩] [⟨2, 0, 0⟩] 1 0 rfl (by decide)).2.1,
   (group_drag_lockstep ⟨1, [2]⟩ [⟨1, [2]⟩] [⟨2, 0, 0⟩] 1 0 rfl (by decide)).2.2.2
     1 0 0 1 0 (by norm_num)⟩

/-- C10 counterexample: with connection mode active and source note 1 chosen,
clicking note 1 again changes nothing — the state stays in connection mode
with the source still set, instead of cancelling back to inactive. -/
theorem connect_same_note_counterexample :
    handleSelect ⟨true, some 1, none, []⟩ (some 1) false
      = (⟨true, some 1, none, []⟩, none) ∧
    ¬((handleSelect ⟨true, some 1, none, []⟩ (some 1) false).1.isConnecting = false ∧
      (handleSelect ⟨true, some 1, none, []⟩ (some 1) false).1.connectingSourceId
        = none) :=
  ⟨rfl, by decide⟩

/-- C10 amended: while connecting with a source chosen, clicking the source
note again is a no-op (no edge, state unchanged); clicking a different note
creates exactly one edge from source to target and exits connection mode;
clicking empty canvas (not panning) cancels back to inactive, dropping the
source and clearing the selection. -/
theorem connect_state_transitions (s : SelectState) (src : ℕ)
    (hc : s.isConnecting = true) (hs : s.connectingSourceId = some src) :
    (∀ ctrl, handleSelect s (some src) ctrl = (s, none)) ∧
    (∀ i ctrl, i ≠ src →
      handleSelect s (some i) ctrl =
        ({ s with isConnecting := false, connectingSourceId := none },
         some (src, i))) ∧
    (handleCanvasClick s false true =
      { s with isConnecting := false, connectingSourceId := none,
               selectedId := none, selectedIds := [] }) := by
  obtain ⟨c, srcId, selId, selIds⟩ := s
  simp only at hc hs
  subst hc
  subst hs
  refine ⟨fun ctrl => ?_, fun i ctrl hi => ?_, ?_⟩
  · simp [handleSelect]
  · have hsi : src ≠ i := Ne.symm hi
    simp [handleSelect, hsi]
  · simp [handleCanvasClick]

/-- Witness for the amended C10: connecting with source 1, clicking note 2
creates the edge (1, 2) and exits connection mode. -/
theorem connect_state_transitions_witness :
    handleSelect ⟨true, some 1, none, []⟩ (some 2) false
      = (⟨false, none, none, []⟩, some (1, 2)) :=
  (connect_state_transitions ⟨true, some 1, none, []⟩ 1 rfl rfl).2.1 2 false
    (by norm_num)

end TeamFred
